import Mathlib

/-!
Shallow embedding of the dashboard's core data logic (`src/app.py`):
the identity normalizer `normalizar_df`, the franchise listing
`carregar_franquias`, the single-franchise load `carregar_dados_franquia`
and the all-franchises load `carregar_todos_os_dados`, together with the
pandas operations they rely on (DataFrame construction from a list of
Mongo documents, column assignment, left merges with suffix renaming)
and the Mongo `$or` equality filter.

Modelling conventions:
* A loosely typed field value is `Val`: an integer, a string, or the
  null/NaN placeholder (`vNull` stands for a missing cell / NaN).
* A Mongo document or a DataFrame row is an association list
  `List (String × Val)`; a DataFrame keeps an explicit column list and
  canonical rows (every row lists exactly the columns, in order),
  mirroring how pandas builds a frame from a list of dicts (union of
  keys in first-appearance order, missing keys become NaN).
* Python `str(...)` is `pyStr` (`str` of NaN is `"nan"`).
* `df[c]` on a missing column raises `KeyError` in pandas; fallible
  accesses are modelled in `Except String`, and each public function
  catches every error and returns its empty fallback, exactly like the
  `try/except` blocks in the source.
-/

namespace App

/-- A loosely typed Mongo/pandas field value. `vNull` models NaN/missing. -/
inductive Val : Type
  | vInt : Int → Val
  | vStr : String → Val
  | vNull : Val
deriving DecidableEq

/-- A record: a Mongo document or a DataFrame row as an association list. -/
abbrev Rec : Type := List (String × Val)

/-- The keys of a record, in order. -/
def keysOf (r : Rec) : List String := r.map Prod.fst

/-- Cell access: the first value bound to key `k`, NaN when absent
(pandas semantics for a row built from a dict). -/
def lookupField (r : Rec) (k : String) : Val :=
  match r.find? (fun p => p.1 == k) with
  | some p => p.2
  | none => Val.vNull

/-- Python `str(...)` on a field value; `str` of a NaN cell is `"nan"`. -/
def pyStr : Val → String
  | Val.vInt n => toString n
  | Val.vStr s => s
  | Val.vNull => "nan"

/-- Python `str.isdigit()` (ASCII digits; empty string is not digits). -/
def digitsOnly (s : String) : Bool :=
  !s.data.isEmpty && s.data.all Char.isDigit

/-- Python `int(...)` on an all-digit decimal string. -/
def strToNat (s : String) : Nat :=
  s.data.foldl (fun a c => a * 10 + (c.toNat - 48)) 0

/-- Append a column name if it is not present yet (pandas key union). -/
def insCol (a : List String) (c : String) : List String :=
  if c ∈ a then a else a ++ [c]

/-- Fold a record's keys into a column list. -/
def insRow (a : List String) (r : Rec) : List String :=
  r.foldl (fun acc p => insCol acc p.1) a

/-- The columns of `pd.DataFrame(recs)`: union of keys in first-appearance
order. -/
def colsOfRecs (recs : List Rec) : List String :=
  recs.foldl insRow []

/-- Canonicalize a record over a column list: every column, in order,
missing cells as NaN. -/
def canonRow (cols : List String) (r : Rec) : Rec :=
  cols.map (fun c => (c, lookupField r c))

/-- A DataFrame: a column list plus canonical rows. -/
structure DF : Type where
  cols : List String
  rows : List Rec
deriving DecidableEq

/-- `pd.DataFrame()` — no columns, no rows. -/
def DF.empty : DF := ⟨[], []⟩

/-- `pd.DataFrame(recs)` for a list of dicts. -/
def buildDF (recs : List Rec) : DF :=
  ⟨colsOfRecs recs, recs.map (canonRow (colsOfRecs recs))⟩

/-- `c in df.columns`. -/
def DF.hasCol (df : DF) (c : String) : Bool := df.cols.contains c

/-- The values of column `c`, row by row (NaN on a missing column). -/
def DF.colVals (df : DF) (c : String) : List Val :=
  df.rows.map (fun r => lookupField r c)

/-- Replace the value bound to key `c` inside one row. -/
def setRowVal (r : Rec) (c : String) (v : Val) : Rec :=
  r.map (fun p => if p.1 == c then (c, v) else p)

/-- `df[c] = series` where the series is computed row-wise from `df`
itself (e.g. `df[c2].astype(str)`): replace the column in place when it
exists, else append it at the end. -/
def setColF (df : DF) (c : String) (f : Rec → Val) : DF :=
  if df.hasCol c then
    ⟨df.cols, df.rows.map (fun r => setRowVal r c (f r))⟩
  else
    ⟨df.cols ++ [c], df.rows.map (fun r => r ++ [(c, f r)])⟩

/-- `df[c] = series` where the series comes from another frame with a
fresh range index: values are aligned positionally (extra values are
ignored). -/
def setColVals (df : DF) (c : String) (vs : List Val) : DF :=
  if df.hasCol c then
    ⟨df.cols, (df.rows.zip vs).map (fun p => setRowVal p.1 c p.2)⟩
  else
    ⟨df.cols ++ [c], (df.rows.zip vs).map (fun p => p.1 ++ [(c, p.2)])⟩

/-- `df[c] = scalar`. -/
def setColScalar (df : DF) (c : String) (v : Val) : DF :=
  setColF df c (fun _ => v)

/-- `df[dst] = df[src].astype(str)` — raises `KeyError` when `src` is
missing, exactly like pandas. -/
def astypeStrCol (df : DF) (src dst : String) : Except String DF :=
  if df.hasCol src then
    Except.ok (setColF df dst (fun r => Val.vStr (pyStr (lookupField r src))))
  else
    Except.error ("KeyError: " ++ src)

/-- `df[c]` as a fallible read (`KeyError` when the column is missing). -/
def getColE (df : DF) (c : String) : Except String (List Val) :=
  if df.hasCol c then Except.ok (df.colVals c) else Except.error ("KeyError: " ++ c)

/-- `df[[c1, c2, ...]]` — column selection, `KeyError` when one is missing. -/
def selectColsE (df : DF) (cs : List String) : Except String DF :=
  if cs.all (fun c => df.hasCol c) then
    Except.ok ⟨cs, df.rows.map (fun r => cs.map (fun c => (c, lookupField r c)))⟩
  else
    Except.error "KeyError: column selection"

/-- Mongo projection: keep only the listed fields, in document order. -/
def projRec (keys : List String) (r : Rec) : Rec :=
  r.filter (fun p => keys.contains p.1)

/-- Pandas `==` between two cell values for merge keys: same-typed
equality, NaN matches nothing. -/
def valEqM (a b : Val) : Bool :=
  match a, b with
  | Val.vInt x, Val.vInt y => x == y
  | Val.vStr x, Val.vStr y => x == y
  | _, _ => false

/-- Right-column renaming for `pd.merge(..., suffixes=('', suf))`:
a right column colliding with a left column gets the suffix. -/
def renameR (lcols : List String) (suf : String) (c : String) : String :=
  if lcols.contains c then c ++ suf else c

/-- `pd.merge(l, r, left_on, right_on, how='left', suffixes=('', suf))`:
left rows in order; each left row is paired with every matching right
row, or with NaNs when none matches. -/
def mergeLeft (l r : DF) (lOn rOn suf : String) : DF :=
  ⟨l.cols ++ r.cols.map (renameR l.cols suf),
   l.rows.flatMap (fun lr =>
     let ms := r.rows.filter (fun rr => valEqM (lookupField lr lOn) (lookupField rr rOn))
     if ms.isEmpty then
       [lr ++ r.cols.map (fun c => (renameR l.cols suf c, Val.vNull))]
     else
       ms.map (fun rr => lr ++ r.cols.map (fun c => (renameR l.cols suf c, lookupField rr c))))⟩

/-- Column renaming for the default suffixes `('_x', '_y')`: both copies
of a colliding name are renamed. -/
def renameXY (others : List String) (suf : String) (c : String) : String :=
  if others.contains c then c ++ suf else c

/-- `pd.merge(l, r, left_on, right_on, how='left')` with the default
suffixes `('_x', '_y')`. -/
def mergeLeftXY (l r : DF) (lOn rOn : String) : DF :=
  ⟨l.cols.map (renameXY r.cols "_x") ++ r.cols.map (renameXY l.cols "_y"),
   l.rows.flatMap (fun lr =>
     let ms := r.rows.filter (fun rr => valEqM (lookupField lr lOn) (lookupField rr rOn))
     let lpart := l.cols.map (fun c => (renameXY r.cols "_x" c, lookupField lr c))
     if ms.isEmpty then
       [lpart ++ r.cols.map (fun c => (renameXY l.cols "_y" c, Val.vNull))]
     else
       ms.map (fun rr => lpart ++ r.cols.map (fun c => (renameXY l.cols "_y" c, lookupField rr c))))⟩

/-- The identity normalizer, step creating `id` from `_id`
(`if 'id' not in df.columns and '_id' in df.columns`). -/
def normStep1 (df : DF) : DF :=
  if !df.hasCol "id" && df.hasCol "_id" then
    setColF df "id" (fun r => Val.vStr (pyStr (lookupField r "_id")))
  else df

/-- The identity normalizer, step coercing an existing `id` column to
string (`df['id'] = df['id'].astype(str)`). -/
def normStep2 (df : DF) : DF :=
  if df.hasCol "id" then
    setColF df "id" (fun r => Val.vStr (pyStr (lookupField r "id")))
  else df

/-- `normalizar_df` from `src/app.py` lines 51-66: empty list gives an
empty frame; otherwise build the frame, derive `id` from `_id` when
needed, and coerce `id` to string. -/
def normalizar_df (dados_list : List Rec) : DF :=
  if dados_list.isEmpty then DF.empty
  else normStep2 (normStep1 (buildDF dados_list))

/-- A Mongo filter: a field-equality clause or a binary `$or`. -/
inductive MFilter : Type
  | feq : String → Val → MFilter
  | orF : MFilter → MFilter → MFilter

/-- Mongo equality between a stored field value and a filter value:
same-typed comparison; a `null` query value matches a missing field
(the stored side of a missing field is `vNull`). -/
def mongoEq (stored v : Val) : Bool :=
  match stored, v with
  | Val.vInt x, Val.vInt y => x == y
  | Val.vStr x, Val.vStr y => x == y
  | Val.vNull, Val.vNull => true
  | _, _ => false

/-- Evaluate a Mongo filter on a document. -/
def matchFilter : MFilter → Rec → Bool
  | MFilter.feq f v, r => mongoEq (lookupField r f) v
  | MFilter.orF a b, r => matchFilter a r || matchFilter b r

/-- The third disjunct of the flexible franchise filter:
`int(franquia_id) if str(franquia_id).isdigit() else -1`. -/
def terceiroVal (fid : Val) : Val :=
  if digitsOnly (pyStr fid) then Val.vInt (Int.ofNat (strToNat (pyStr fid)))
  else Val.vInt (-1)

/-- The `$or` filter built by `carregar_dados_franquia` (lines 139-143):
original value, string form, and integer form (or the `-1` sentinel). -/
def filtro (fid : Val) : MFilter :=
  MFilter.orF (MFilter.feq "id_franquia" fid)
    (MFilter.orF (MFilter.feq "id_franquia" (Val.vStr (pyStr fid)))
      (MFilter.feq "id_franquia" (terceiroVal fid)))

/-- Whether `w` occurs at the start of `l`. -/
def leadsWith : List Char → List Char → Bool
  | [], _ => true
  | _ :: _, [] => false
  | a :: as, b :: bs => a == b && leadsWith as bs

/-- Whether `w` occurs as a contiguous sublist of `l`. -/
def hasSub (w : List Char) : List Char → Bool
  | [] => w.isEmpty
  | c :: rest => leadsWith w (c :: rest) || hasSub w rest

/-- Python's substring test `'nome' in c`. -/
def containsNome (c : String) : Bool := hasSub "nome".data c.data

/-- Sort key giving the pandas `sort_values` order on the cell values
this code produces: integers first (numerically), then strings
(lexicographically), then NaN last (`na_position='last'`). -/
def valKey : Val → Lex (Nat × Lex (Int × String))
  | Val.vInt n => toLex (0, toLex (n, ""))
  | Val.vStr s => toLex (1, toLex (0, s))
  | Val.vNull => toLex (2, toLex (0, ""))

/-- Row comparison used by `sort_values('nome')`. -/
def rowLeNome (a b : Rec) : Prop :=
  valKey (lookupField a "nome") ≤ valKey (lookupField b "nome")

instance : DecidableRel rowLeNome := fun a b =>
  inferInstanceAs (Decidable (valKey (lookupField a "nome") ≤ valKey (lookupField b "nome")))

instance : IsTotal Rec rowLeNome := ⟨fun a b => le_total (valKey (lookupField a "nome")) (valKey (lookupField b "nome"))⟩

instance : IsTrans Rec rowLeNome := ⟨fun _ _ _ h h2 => le_trans h h2⟩

/-- `df.sort_values('nome')` — rows reordered ascending by the `nome`
cell, columns unchanged. -/
def sortByNome (df : DF) : DF :=
  ⟨df.cols, List.insertionSort rowLeNome df.rows⟩

/-- The strings `"0", "1", ...` of `df.index.astype(str)`. -/
def indexStrs (n : Nat) : List Val :=
  (List.range n).map (fun i => Val.vStr (toString i))

instance (ε α : Type) [DecidableEq ε] [DecidableEq α] : DecidableEq (Except ε α) :=
  fun a b =>
    match a, b with
    | Except.ok x, Except.ok y =>
      match decEq x y with
      | isTrue h => isTrue (by rw [h])
      | isFalse h => isFalse (by intro he; cases he; exact h rfl)
    | Except.error x, Except.error y =>
      match decEq x y with
      | isTrue h => isTrue (by rw [h])
      | isFalse h => isFalse (by intro he; cases he; exact h rfl)
    | Except.ok _, Except.error _ => isFalse (by intro he; cases he)
    | Except.error _, Except.ok _ => isFalse (by intro he; cases he)

/-- The database handle: each collection scan either yields the raw
documents or fails (connection/query failure at the data-source
boundary). -/
structure FDB : Type where
  franquias : Except String (List Rec)
  organizacoes : Except String (List Rec)
  individuos : Except String (List Rec)
  veiculos : Except String (List Rec)
  comandantes : Except String (List Rec)

/-- The result of a data load: the three display tables. -/
structure LoadResult : Type where
  orgs : DF
  inds : DF
  veis : DF
deriving DecidableEq

/-- The empty result every load falls back to. -/
def emptyLoad : LoadResult := ⟨DF.empty, DF.empty, DF.empty⟩

/-- The empty franchise listing (`pd.DataFrame(columns=['id','nome'])`). -/
def emptyFranq : DF := ⟨["id", "nome"], []⟩

/-- `if 'nome' not in df.columns: df['nome'] = "Sem Nome"` (line 125) —
a column-level fill, not a per-record one. -/
def franqFillNome (df : DF) : DF :=
  if df.hasCol "nome" then df else setColScalar df "nome" (Val.vStr "Sem Nome")

/-- `if 'id' not in df.columns: df['id'] = df.index.astype(str)`
(line 126). -/
def franqFillId (df : DF) : DF :=
  if df.hasCol "id" then df else setColVals df "id" (indexStrs df.rows.length)

/-- Body of `carregar_franquias` (lines 114-131), before the exception
boundary: scan `franquias` projected to `nome`/`id`/`_id`, normalize,
fill `nome` with `"Sem Nome"` when the column is missing, fill `id`
with the stringified row index when the column is missing, select
`[id, nome]` and sort by `nome`. -/
def carregar_franquias_core (db : FDB) : Except String DF := do
  let franqs ← db.franquias
  let df0 := normalizar_df (franqs.map (projRec ["nome", "id", "_id"]))
  if df0.rows.isEmpty then
    return emptyFranq
  else
    let df2 := franqFillId (franqFillNome df0)
    let sel ← selectColsE df2 ["id", "nome"]
    return sortByNome sel

/-- `carregar_franquias` with its exception boundary: `db is None` and
every caught failure produce the empty `[id, nome]` frame. -/
def carregar_franquias (odb : Option FDB) : DF :=
  match odb with
  | none => emptyFranq
  | some db =>
    match carregar_franquias_core db with
    | Except.ok d => d
    | Except.error _ => emptyFranq

/-- Body of `carregar_dados_franquia` (lines 137-196), before the
exception boundary. Filtered scans of the three main collections,
normalization, and — when the vehicle set is non-empty and both
auxiliary tables are non-empty — the vehicle→commander→individual
resolution: stringified key columns, a left merge with suffixes
`('', '_cmd_info')`, the `id_individuo` / `id_individuo_cmd_info`
column disambiguation, a second left merge with suffixes
`('', '_nome_final')`, and the final `comandante_nome` assignment
(first from `nome_nome_final` when present, then unconditionally
overwritten from the last column whose name contains `'nome'`,
falling back to the literal `"Desconhecido"`). -/
def carregar_dados_franquia_core (db : FDB) (franquia_id : Val) : Except String LoadResult := do
  let orgs ← db.organizacoes
  let inds ← db.individuos
  let veiculos ← db.veiculos
  let pred := fun r => matchFilter (filtro franquia_id) r
  let df_orgs := normalizar_df (orgs.filter pred)
  let df_inds := normalizar_df (inds.filter pred)
  let df_veis := normalizar_df (veiculos.filter pred)
  if df_veis.rows.isEmpty then
    return ⟨df_orgs, df_inds, df_veis⟩
  else do
    let comandantes ← db.comandantes
    let todos_inds_raw ← db.individuos
    let df_cmd := normalizar_df comandantes
    let df_todos_inds := normalizar_df (todos_inds_raw.map (projRec ["id", "nome", "_id"]))
    if df_cmd.rows.isEmpty || df_todos_inds.rows.isEmpty then
      return ⟨df_orgs, df_inds, df_veis⟩
    else do
      let dfv1 :=
        if df_veis.hasCol "id_comandante" then
          setColF df_veis "id_cmd_str" (fun r => Val.vStr (pyStr (lookupField r "id_comandante")))
        else
          setColScalar df_veis "id_cmd_str" (Val.vStr "")
      let df_cmd2 ← astypeStrCol df_cmd "id" "id_str"
      let dfv2 := mergeLeft dfv1 df_cmd2 "id_cmd_str" "id_str" "_cmd_info"
      let col_id_ind := if df_cmd2.hasCol "id_individuo" then "id_individuo" else "id_individuo_cmd_info"
      if dfv2.hasCol col_id_ind then do
        let dfv3 := setColF dfv2 "id_ind_final" (fun r => Val.vStr (pyStr (lookupField r col_id_ind)))
        let df_todos_inds2 ← astypeStrCol df_todos_inds "id" "id_str"
        let final := mergeLeft dfv3 df_todos_inds2 "id_ind_final" "id_str" "_nome_final"
        let dfvA :=
          if final.hasCol "nome_nome_final" then
            setColVals dfv3 "comandante_nome" (final.colVals "nome_nome_final")
          else dfv3
        let cols_nome := final.cols.filter (fun c => containsNome c && c != "nome")
        let dfvB :=
          match cols_nome.getLast? with
          | some c => setColVals dfvA "comandante_nome" (final.colVals c)
          | none => setColScalar dfvA "comandante_nome" (Val.vStr "Desconhecido")
        return ⟨df_orgs, df_inds, dfvB⟩
      else
        return ⟨df_orgs, df_inds, setColScalar dfv2 "comandante_nome" (Val.vStr "Desconhecido")⟩

/-- `carregar_dados_franquia` with its exception boundary: `db is None`
and every caught failure produce three empty frames. -/
def carregar_dados_franquia (odb : Option FDB) (franquia_id : Val) : LoadResult :=
  match odb with
  | none => emptyLoad
  | some db =>
    match carregar_dados_franquia_core db franquia_id with
    | Except.ok r => r
    | Except.error _ => emptyLoad

/-- One iteration of the franchise-name loop in `carregar_todos_os_dados`
(lines 216-220): when the table is non-empty and has `id_franquia`,
stringify it, left-merge against `franquias[['id_str','nome']]` with the
DEFAULT suffixes `('_x','_y')`, and copy `temp['nome']` into
`nome_franquia` (a `KeyError` when `nome` got suffixed away). -/
def addNomeFranquia (df_franquias2 df : DF) : Except String DF :=
  if !df.rows.isEmpty && df.hasCol "id_franquia" then do
    let df2 := setColF df "id_franquia_str" (fun r => Val.vStr (pyStr (lookupField r "id_franquia")))
    let sel ← selectColsE df_franquias2 ["id_str", "nome"]
    let temp := mergeLeftXY df2 sel "id_franquia_str" "id_str"
    let nomes ← getColE temp "nome"
    return setColVals df2 "nome_franquia" nomes
  else
    return df

/-- Body of `carregar_todos_os_dados` (lines 201-225), before the
exception boundary: normalize the four collections; when there are
franchises, stringify their ids and run the franchise-name loop over
organizations, individuals and vehicles. No commander resolution is
performed here. -/
def carregar_todos_os_dados_core (db : FDB) : Except String LoadResult := do
  let franqs ← db.franquias
  let orgs ← db.organizacoes
  let inds ← db.individuos
  let veiculos ← db.veiculos
  let df_franquias := normalizar_df franqs
  let df_orgs := normalizar_df orgs
  let df_inds := normalizar_df inds
  let df_veis := normalizar_df veiculos
  if df_franquias.rows.isEmpty then
    return ⟨df_orgs, df_inds, df_veis⟩
  else do
    let df_franquias2 ← astypeStrCol df_franquias "id" "id_str"
    let df_orgs2 ← addNomeFranquia df_franquias2 df_orgs
    let df_inds2 ← addNomeFranquia df_franquias2 df_inds
    let df_veis2 ← addNomeFranquia df_franquias2 df_veis
    return ⟨df_orgs2, df_inds2, df_veis2⟩

/-- `carregar_todos_os_dados` with its exception boundary. -/
def carregar_todos_os_dados (odb : Option FDB) : LoadResult :=
  match odb with
  | none => emptyLoad
  | some db =>
    match carregar_todos_os_dados_core db with
    | Except.ok r => r
    | Except.error _ => emptyLoad

/-- Well-formed DataFrame: no duplicate column names, and every row
lists exactly the columns, in order. Every frame this code builds is
well-formed. -/
def DF.Wf (df : DF) : Prop :=
  df.cols.Nodup ∧ ∀ r ∈ df.rows, keysOf r = df.cols

/-- Shorthand for string values in concrete inputs. -/
def vS (s : String) : Val := Val.vStr s

/-- Presence and contents of the resolved commander-name column of the
vehicles table of a load result (`false` and `[]` on a failed load). -/
def veisCmdNomeInfo (e : Except String LoadResult) : Bool × List Val :=
  match e with
  | Except.ok r => (r.veis.hasCol "comandante_nome", r.veis.colVals "comandante_nome")
  | Except.error _ => (false, [])

/-- Presence of the commander-name column and row count of the vehicles
table of an all-franchises load. -/
def veisInfo (e : Except String LoadResult) : Bool × Nat :=
  match e with
  | Except.ok r => (r.veis.hasCol "comandante_nome", r.veis.rows.length)
  | Except.error _ => (true, 0)

/-- Whether none of the raw vehicle documents carries a
`comandante_nome` field (`true` as well when the scan fails). -/
def veisRawLacksCmdNome (db : FDB) : Bool :=
  match db.veiculos with
  | Except.ok l => l.all (fun r => !(keysOf r).contains "comandante_nome")
  | Except.error _ => true

/-- Whether the vehicles table produced by the all-franchises load has
no `comandante_nome` column (`true` as well when the load fails). -/
def veisResLacksCmdNome (db : FDB) : Bool :=
  match carregar_todos_os_dados_core db with
  | Except.ok r => !(r.veis.hasCol "comandante_nome")
  | Except.error _ => true

/-- Input for the missing-commander scenario: a vehicle referencing
commander `"C1"`, a non-empty commanders table without `"C1"`, and a
non-empty individuals table. -/
def dbMissingLink : FDB :=
  ⟨Except.ok [],
   Except.ok [],
   Except.ok [[("id", vS "I9"), ("nome", vS "Ana"), ("id_franquia", vS "F1")]],
   Except.ok [[("id", vS "V1"), ("id_franquia", vS "F1"), ("id_comandante", vS "C1")]],
   Except.ok [[("id", vS "C9"), ("id_individuo", vS "I1")]]⟩

/-- Input for the empty-commanders scenario: same vehicle, commanders
collection empty. -/
def dbEmptyCmd : FDB :=
  ⟨Except.ok [],
   Except.ok [],
   Except.ok [[("id", vS "I9"), ("nome", vS "Ana"), ("id_franquia", vS "F1")]],
   Except.ok [[("id", vS "V1"), ("id_franquia", vS "F1"), ("id_comandante", vS "C1")]],
   Except.ok []⟩

/-- Input for the complete-chain scenario of the spec: vehicle with
`commander_id "C1"`, commander `(id "C1", individual_id "I9")`,
individual `(id "I9", name "Ana")`. -/
def dbChain : FDB :=
  ⟨Except.ok [],
   Except.ok [],
   Except.ok [[("id", vS "I9"), ("nome", vS "Ana")]],
   Except.ok [[("id", vS "V1"), ("id_franquia", vS "F1"), ("id_comandante", vS "C1")]],
   Except.ok [[("id", vS "C1"), ("id_individuo", vS "I9")]]⟩

/-- Input for the all-franchises load with a complete
vehicle→commander→individual chain (the individual has no franchise
field, so the franchise-name loop skips that table). -/
def dbAllChain : FDB :=
  ⟨Except.ok [[("id", vS "F1"), ("nome", vS "Alfa")]],
   Except.ok [],
   Except.ok [[("id", vS "I9"), ("nome", vS "Ana")]],
   Except.ok [[("id", vS "V1"), ("id_franquia", vS "F1"), ("id_comandante", vS "C1")]],
   Except.ok [[("id", vS "C1"), ("id_individuo", vS "I9")]]⟩

/-- Input for the franchise-name scenario: franchise `(F1, "Alfa")`,
an organization belonging to `F1`, and an individual that has both a
`nome` field and a `id_franquia` field. -/
def dbFranqName : FDB :=
  ⟨Except.ok [[("id", vS "F1"), ("nome", vS "Alfa")]],
   Except.ok [[("id", vS "O1"), ("id_franquia", vS "F1")]],
   Except.ok [[("id", vS "I1"), ("id_franquia", vS "F1"), ("nome", vS "Bia")]],
   Except.ok [],
   Except.ok []⟩

/-- Input for the franchise listing: one franchise document with a name,
one without. -/
def dbTwoFranqs : FDB :=
  ⟨Except.ok [[("_id", vS "b"), ("nome", vS "X")], [("_id", vS "a")]],
   Except.ok [], Except.ok [], Except.ok [], Except.ok []⟩

/-! ### Association-list and column lemmas -/

theorem lookupField_cons_self (k : String) (v : Val) (t : Rec) :
    lookupField ((k, v) :: t) k = v := by
  simp [lookupField, List.find?]

theorem lookupField_cons_ne (p : String × Val) (t : Rec) (k : String) (h : p.1 ≠ k) :
    lookupField (p :: t) k = lookupField t k := by
  have hb : (p.1 == k) = false := by simp [h]
  simp [lookupField, List.find?, hb]

theorem keysOf_setRowVal (r : Rec) (c : String) (v : Val) :
    keysOf (setRowVal r c v) = keysOf r := by
  simp only [keysOf, setRowVal, List.map_map]
  refine List.map_congr_left ?_
  intro p _
  by_cases h : p.1 = c
  · simp [h]
  · simp [h]

theorem lookupField_setRowVal_self (r : Rec) (c : String) (v : Val) (h : c ∈ keysOf r) :
    lookupField (setRowVal r c v) c = v := by
  induction r with
  | nil => simp [keysOf] at h
  | cons p t ih =>
    by_cases hp : p.1 = c
    · simp [setRowVal, hp, lookupField_cons_self]
    · have hmem : c ∈ keysOf t := by
        simp [keysOf] at h
        rcases h with h | h
        · exact absurd h.symm hp
        · simpa [keysOf] using h
      have hstep : setRowVal (p :: t) c v = p :: setRowVal t c v := by
        simp [setRowVal, hp]
      rw [hstep, lookupField_cons_ne p _ c hp, ih hmem]

theorem lookupField_setRowVal_ne (r : Rec) (c : String) (v : Val) (k : String) (h : k ≠ c) :
    lookupField (setRowVal r c v) k = lookupField r k := by
  induction r with
  | nil => simp [setRowVal]
  | cons p t ih =>
    by_cases hp : p.1 = c
    · have hstep : setRowVal (p :: t) c v = (c, v) :: setRowVal t c v := by
        simp [setRowVal, hp]
      rw [hstep, lookupField_cons_ne (c, v) _ k (Ne.symm h),
        lookupField_cons_ne p t k (by simpa [hp] using Ne.symm h), ih]
    · have hstep : setRowVal (p :: t) c v = p :: setRowVal t c v := by
        simp [setRowVal, hp]
      by_cases hk : p.1 = k
      · rw [hstep]
        simp [lookupField, List.find?, hk]
      · rw [hstep, lookupField_cons_ne p _ k hk, lookupField_cons_ne p t k hk, ih]

theorem setRowVal_of_not_mem (r : Rec) (c : String) (v : Val) (h : c ∉ keysOf r) :
    setRowVal r c v = r := by
  induction r with
  | nil => rfl
  | cons p t ih =>
    have hp : p.1 ≠ c := by
      intro he
      exact h (by simp [keysOf, he])
    have ht : c ∉ keysOf t := by
      intro hm
      exact h (by simp [keysOf] at hm ⊢; exact Or.inr hm)
    simp [setRowVal, hp] at ih ⊢
    exact ih ht

theorem setRowVal_self (r : Rec) (c : String) (h : (keysOf r).Nodup) :
    setRowVal r c (lookupField r c) = r := by
  induction r with
  | nil => rfl
  | cons p t ih =>
    have hnd : (keysOf t).Nodup := by
      simpa [keysOf] using h.of_cons
    by_cases hp : p.1 = c
    · have hnot : c ∉ keysOf t := by
        have hh : (p.1 :: keysOf t).Nodup := by simpa [keysOf] using h
        have := (List.nodup_cons.1 hh).1
        simpa [hp] using this
      have hv : lookupField (p :: t) c = p.2 := by
        cases p with
        | mk k v => simp [Prod.fst] at hp; subst hp; exact lookupField_cons_self _ _ _
      rw [hv]
      have : setRowVal (p :: t) c p.2 = (c, p.2) :: setRowVal t c p.2 := by
        simp [setRowVal, hp]
      rw [this, setRowVal_of_not_mem t c p.2 hnot]
      cases p with
      | mk k v => simp [Prod.fst] at hp; subst hp; rfl
    · have : setRowVal (p :: t) c (lookupField (p :: t) c)
          = p :: setRowVal t c (lookupField (p :: t) c) := by
        simp [setRowVal, hp]
      rw [this, lookupField_cons_ne p t c hp, ih hnd]

theorem keysOf_append_single (r : Rec) (c : String) (v : Val) :
    keysOf (r ++ [(c, v)]) = keysOf r ++ [c] := by
  simp [keysOf]

theorem lookupField_append_self (r : Rec) (c : String) (v : Val) (h : c ∉ keysOf r) :
    lookupField (r ++ [(c, v)]) c = v := by
  induction r with
  | nil => simp [lookupField, List.find?]
  | cons p t ih =>
    have hp : p.1 ≠ c := by
      intro he
      exact h (by simp [keysOf, he])
    have ht : c ∉ keysOf t := by
      intro hm
      exact h (by simp [keysOf] at hm ⊢; exact Or.inr hm)
    rw [List.cons_append, lookupField_cons_ne p _ c hp, ih ht]

theorem lookupField_append_ne (r : Rec) (c : String) (v : Val) (k : String) (h : k ≠ c) :
    lookupField (r ++ [(c, v)]) k = lookupField r k := by
  induction r with
  | nil =>
    have hb : (c == k) = false := by simp [Ne.symm h]
    simp [lookupField, List.find?, hb]
  | cons p t ih =>
    by_cases hk : p.1 = k
    · rw [List.cons_append]
      simp [lookupField, List.find?, hk]
    · rw [List.cons_append, lookupField_cons_ne p _ k hk, lookupField_cons_ne p t k hk, ih]

theorem keysOf_canonRow (cols : List String) (r : Rec) :
    keysOf (canonRow cols r) = cols := by
  simp only [keysOf, canonRow, List.map_map]
  have : (Prod.fst ∘ fun c => (c, lookupField r c)) = fun c : String => c := rfl
  rw [this]
  exact List.map_id cols

theorem lookupField_canonRow (cols : List String) (r : Rec) (c : String) (h : c ∈ cols) :
    lookupField (canonRow cols r) c = lookupField r c := by
  induction cols with
  | nil => simp at h
  | cons a t ih =>
    by_cases ha : a = c
    · subst ha
      simp [canonRow, lookupField_cons_self]
    · have hmem : c ∈ t := by
        rcases List.mem_cons.1 h with h1 | h1
        · exact absurd h1.symm ha
        · exact h1
      have : canonRow (a :: t) r = (a, lookupField r a) :: canonRow t r := rfl
      rw [this, lookupField_cons_ne _ _ c ha, ih hmem]

theorem canonRow_self (r : Rec) (h : (keysOf r).Nodup) :
    canonRow (keysOf r) r = r := by
  induction r with
  | nil => rfl
  | cons p t ih =>
    have hh : (p.1 :: keysOf t).Nodup := by simpa [keysOf] using h
    have hnot : p.1 ∉ keysOf t := (List.nodup_cons.1 hh).1
    have hnd : (keysOf t).Nodup := (List.nodup_cons.1 hh).2
    have hkeys : keysOf (p :: t) = p.1 :: keysOf t := by simp [keysOf]
    rw [hkeys]
    have hhead : lookupField (p :: t) p.1 = p.2 := by
      cases p with
      | mk k v => exact lookupField_cons_self _ _ _
    have htail : (keysOf t).map (fun c => (c, lookupField (p :: t) c))
        = (keysOf t).map (fun c => (c, lookupField t c)) := by
      refine List.map_congr_left ?_
      intro c hc
      have hpc : p.1 ≠ c := fun he => hnot (he ▸ hc)
      rw [lookupField_cons_ne p t c hpc]
    have : canonRow (p.1 :: keysOf t) (p :: t)
        = (p.1, lookupField (p :: t) p.1) :: (keysOf t).map (fun c => (c, lookupField (p :: t) c)) := rfl
    rw [this, hhead, htail]
    have : (keysOf t).map (fun c => (c, lookupField t c)) = canonRow (keysOf t) t := rfl
    rw [this, ih hnd]

theorem mem_insCol (a : List String) (c x : String) :
    x ∈ insCol a c ↔ x ∈ a ∨ x = c := by
  by_cases h : c ∈ a
  · simp only [insCol, if_pos h]
    constructor
    · exact Or.inl
    · rintro (hx | rfl)
      · exact hx
      · exact h
  · simp [insCol, if_neg h]

theorem insCol_nodup (a : List String) (c : String) (h : a.Nodup) :
    (insCol a c).Nodup := by
  by_cases hm : c ∈ a
  · simpa [insCol, if_pos hm] using h
  · rw [insCol, if_neg hm]
    refine List.nodup_append.2 ⟨h, List.nodup_singleton c, ?_⟩
    intro x hx hx2
    simp at hx2
    exact hm (hx2 ▸ hx)

theorem mem_insRow (r : Rec) : ∀ (a : List String) (x : String),
    x ∈ insRow a r ↔ x ∈ a ∨ x ∈ keysOf r := by
  induction r with
  | nil => intro a x; simp [insRow, keysOf]
  | cons p t ih =>
    intro a x
    have hstep : insRow a (p :: t) = insRow (insCol a p.1) t := rfl
    rw [hstep, ih, mem_insCol]
    simp [keysOf]
    tauto

theorem insRow_nodup (r : Rec) : ∀ a : List String, a.Nodup → (insRow a r).Nodup := by
  induction r with
  | nil => intro a h; exact h
  | cons p t ih =>
    intro a h
    exact ih (insCol a p.1) (insCol_nodup a p.1 h)

theorem insRow_of_subset (r : Rec) : ∀ a : List String,
    (∀ k ∈ keysOf r, k ∈ a) → insRow a r = a := by
  induction r with
  | nil => intro a _; rfl
  | cons p t ih =>
    intro a h
    have hp : p.1 ∈ a := h p.1 (by simp [keysOf])
    have hstep : insRow a (p :: t) = insRow (insCol a p.1) t := rfl
    have hic : insCol a p.1 = a := by simp [insCol, if_pos hp]
    rw [hstep, hic, ih a]
    intro k hk
    exact h k (by simp [keysOf] at hk ⊢; exact Or.inr hk)

theorem insRow_fresh (r : Rec) : ∀ a : List String, (keysOf r).Nodup →
    (∀ k ∈ keysOf r, k ∉ a) → insRow a r = a ++ keysOf r := by
  induction r with
  | nil => intro a _ _; simp [insRow, keysOf]
  | cons p t ih =>
    intro a hnd hdis
    have hh : (p.1 :: keysOf t).Nodup := by simpa [keysOf] using hnd
    have hp : p.1 ∉ a := hdis p.1 (by simp [keysOf])
    have hstep : insRow a (p :: t) = insRow (insCol a p.1) t := rfl
    have hic : insCol a p.1 = a ++ [p.1] := by simp [insCol, if_neg hp]
    rw [hstep, hic, ih (a ++ [p.1]) (List.nodup_cons.1 hh).2]
    · simp [keysOf]
    · intro k hk
      simp only [List.mem_append, List.mem_singleton]
      rintro (hka | hkp)
      · exact hdis k (by simp [keysOf] at hk ⊢; exact Or.inr hk) hka
      · exact (List.nodup_cons.1 hh).1 (hkp ▸ hk)

theorem foldl_insRow_nodup (recs : List Rec) : ∀ a : List String, a.Nodup →
    (recs.foldl insRow a).Nodup := by
  induction recs with
  | nil => intro a h; exact h
  | cons r t ih => intro a h; exact ih (insRow a r) (insRow_nodup r a h)

theorem colsOfRecs_nodup (recs : List Rec) : (colsOfRecs recs).Nodup :=
  foldl_insRow_nodup recs [] List.nodup_nil

theorem mem_foldl_insRow (recs : List Rec) : ∀ (a : List String) (x : String),
    x ∈ recs.foldl insRow a ↔ x ∈ a ∨ ∃ r ∈ recs, x ∈ keysOf r := by
  induction recs with
  | nil => intro a x; simp
  | cons r t ih =>
    intro a x
    have : (r :: t).foldl insRow a = t.foldl insRow (insRow a r) := rfl
    rw [this, ih, mem_insRow]
    simp
    tauto

theorem mem_colsOfRecs (recs : List Rec) (x : String) :
    x ∈ colsOfRecs recs ↔ ∃ r ∈ recs, x ∈ keysOf r := by
  rw [colsOfRecs, mem_foldl_insRow]
  simp

theorem foldl_insRow_const (cols : List String) (recs : List Rec)
    (h : ∀ r ∈ recs, keysOf r = cols) : recs.foldl insRow cols = cols := by
  induction recs with
  | nil => rfl
  | cons r t ih =>
    have : (r :: t).foldl insRow cols = t.foldl insRow (insRow cols r) := rfl
    rw [this, insRow_of_subset r cols]
    · exact ih (fun r2 h2 => h r2 (by simp [h2]))
    · intro k hk
      rw [h r (by simp)] at hk
      exact hk

theorem colsOfRecs_const (cols : List String) (recs : List Rec)
    (h : ∀ r ∈ recs, keysOf r = cols) (hne : recs ≠ []) (hnd : cols.Nodup) :
    colsOfRecs recs = cols := by
  cases recs with
  | nil => exact absurd rfl hne
  | cons r t =>
    have hk : keysOf r = cols := h r (by simp)
    have h1 : insRow [] r = cols := by
      rw [insRow_fresh r [] (hk ▸ hnd) (by intro k _ hk2; simp at hk2)]
      simpa using hk
    have : colsOfRecs (r :: t) = t.foldl insRow (insRow [] r) := rfl
    rw [this, h1, foldl_insRow_const cols t (fun r2 h2 => h r2 (by simp [h2]))]

/-! ### DataFrame lemmas -/

theorem hasCol_iff (df : DF) (c : String) : df.hasCol c = true ↔ c ∈ df.cols := by
  simp [DF.hasCol, List.elem_iff]

theorem hasCol_false_iff (df : DF) (c : String) : df.hasCol c = false ↔ c ∉ df.cols := by
  constructor
  · intro h hm
    rw [(hasCol_iff df c).2 hm] at h
    cases h
  · intro h
    cases hc : df.hasCol c
    · rfl
    · exact absurd ((hasCol_iff df c).1 hc) h

theorem buildDF_wf (recs : List Rec) : (buildDF recs).Wf := by
  refine ⟨colsOfRecs_nodup recs, ?_⟩
  intro r hr
  simp only [buildDF, List.mem_map] at hr
  obtain ⟨r0, _, rfl⟩ := hr
  exact keysOf_canonRow _ _

theorem buildDF_rows_length (recs : List Rec) : (buildDF recs).rows.length = recs.length := by
  simp [buildDF]

theorem buildDF_self (df : DF) (h : df.Wf) (hne : df.rows ≠ []) : buildDF df.rows = df := by
  obtain ⟨cols, rows⟩ := df
  obtain ⟨hnd, hrows⟩ := h
  have hcols : colsOfRecs rows = cols := colsOfRecs_const cols rows hrows hne hnd
  simp only [buildDF, hcols, DF.mk.injEq, true_and]
  have : rows.map (canonRow cols) = rows.map (fun r => r) := by
    refine List.map_congr_left ?_
    intro r hr
    have hk : keysOf r = cols := hrows r hr
    rw [← hk]
    exact canonRow_self r (hk ▸ hnd)
  rw [this]
  exact List.map_id rows

theorem not_hasCol_true (df : DF) (c : String) (h : df.hasCol c = false) :
    ¬ df.hasCol c = true := by
  rw [h]
  exact Bool.false_ne_true

theorem setColF_cols_pos (df : DF) (c : String) (f : Rec → Val) (h : df.hasCol c = true) :
    (setColF df c f).cols = df.cols := by
  rw [setColF, if_pos h]

theorem setColF_cols_neg (df : DF) (c : String) (f : Rec → Val) (h : df.hasCol c = false) :
    (setColF df c f).cols = df.cols ++ [c] := by
  rw [setColF, if_neg (not_hasCol_true df c h)]

theorem mem_setColF_cols (df : DF) (c : String) (f : Rec → Val) (x : String) :
    x ∈ (setColF df c f).cols ↔ x ∈ df.cols ∨ x = c := by
  cases h : df.hasCol c
  · rw [setColF_cols_neg df c f h]
    simp
  · rw [setColF_cols_pos df c f h]
    constructor
    · exact Or.inl
    · intro hx
      rcases hx with hx | hx
      · exact hx
      · rw [hx]
        exact (hasCol_iff df c).1 h

theorem setColF_rows_length (df : DF) (c : String) (f : Rec → Val) :
    (setColF df c f).rows.length = df.rows.length := by
  cases h : df.hasCol c
  · rw [setColF, if_neg (not_hasCol_true df c h)]
    simp
  · rw [setColF, if_pos h]
    simp

theorem setColF_fresh_rows (df : DF) (c : String) (f : Rec → Val)
    (h : df.hasCol c = false) :
    (setColF df c f).rows = df.rows.map (fun r => r ++ [(c, f r)]) := by
  rw [setColF, if_neg (not_hasCol_true df c h)]

theorem setColF_exist_rows (df : DF) (c : String) (f : Rec → Val)
    (h : df.hasCol c = true) :
    (setColF df c f).rows = df.rows.map (fun r => setRowVal r c (f r)) := by
  rw [setColF, if_pos h]

theorem setColF_wf (df : DF) (c : String) (f : Rec → Val) (h : df.Wf) :
    (setColF df c f).Wf := by
  obtain ⟨hnd, hrows⟩ := h
  cases hc : df.hasCol c
  · rw [setColF, if_neg (not_hasCol_true df c hc)]
    have hnm : c ∉ df.cols := (hasCol_false_iff df c).1 hc
    refine ⟨?_, ?_⟩
    · refine List.nodup_append.2 ⟨hnd, List.nodup_singleton c, ?_⟩
      intro x hx hx2
      simp only [List.mem_singleton] at hx2
      exact hnm (hx2 ▸ hx)
    · intro r hr
      simp only [List.mem_map] at hr
      obtain ⟨r0, hr0, rfl⟩ := hr
      rw [keysOf_append_single, hrows r0 hr0]
  · rw [setColF, if_pos hc]
    refine ⟨hnd, ?_⟩
    intro r hr
    simp only [List.mem_map] at hr
    obtain ⟨r0, hr0, rfl⟩ := hr
    rw [keysOf_setRowVal]
    exact hrows r0 hr0

theorem setColF_self (df : DF) (c : String) (h : df.Wf) (hc : df.hasCol c = true)
    (f : Rec → Val) (hf : ∀ r ∈ df.rows, f r = lookupField r c) :
    setColF df c f = df := by
  obtain ⟨hnd, hrows⟩ := h
  rw [setColF, if_pos hc]
  obtain ⟨cols, rows⟩ := df
  simp only [DF.mk.injEq, true_and]
  have : rows.map (fun r => setRowVal r c (f r)) = rows.map (fun r => r) := by
    refine List.map_congr_left ?_
    intro r hr
    rw [hf r hr, setRowVal_self r c ((hrows r hr) ▸ hnd)]
  rw [this]
  exact List.map_id rows

theorem mem_setColVals_cols (df : DF) (c : String) (vs : List Val) (x : String) :
    x ∈ (setColVals df c vs).cols ↔ x ∈ df.cols ∨ x = c := by
  cases h : df.hasCol c
  · rw [setColVals, if_neg (not_hasCol_true df c h)]
    simp
  · rw [setColVals, if_pos h]
    constructor
    · exact Or.inl
    · intro hx
      rcases hx with hx | hx
      · exact hx
      · rw [hx]
        exact (hasCol_iff df c).1 h

theorem setColVals_fresh_mem_rows (df : DF) (c : String) (vs : List Val)
    (h : df.hasCol c = false) (row : Rec) (hr : row ∈ (setColVals df c vs).rows) :
    ∃ r0 ∈ df.rows, ∃ v ∈ vs, row = r0 ++ [(c, v)] := by
  rw [setColVals, if_neg (not_hasCol_true df c h)] at hr
  simp only [List.mem_map] at hr
  obtain ⟨p, hp, rfl⟩ := hr
  have := List.of_mem_zip hp
  exact ⟨p.1, this.1, p.2, this.2, rfl⟩

theorem setColVals_wf (df : DF) (c : String) (vs : List Val) (h : df.Wf) :
    (setColVals df c vs).Wf := by
  obtain ⟨hnd, hrows⟩ := h
  cases hc : df.hasCol c
  · rw [setColVals, if_neg (not_hasCol_true df c hc)]
    have hnm : c ∉ df.cols := (hasCol_false_iff df c).1 hc
    refine ⟨?_, ?_⟩
    · refine List.nodup_append.2 ⟨hnd, List.nodup_singleton c, ?_⟩
      intro x hx hx2
      simp only [List.mem_singleton] at hx2
      exact hnm (hx2 ▸ hx)
    · intro r hr
      simp only [List.mem_map] at hr
      obtain ⟨p, hp, rfl⟩ := hr
      rw [keysOf_append_single, hrows p.1 (List.of_mem_zip hp).1]
  · rw [setColVals, if_pos hc]
    refine ⟨hnd, ?_⟩
    intro r hr
    simp only [List.mem_map] at hr
    obtain ⟨p, hp, rfl⟩ := hr
    rw [keysOf_setRowVal]
    exact hrows p.1 (List.of_mem_zip hp).1

theorem setColVals_rows_length (df : DF) (c : String) (vs : List Val)
    (h : vs.length = df.rows.length) :
    (setColVals df c vs).rows.length = df.rows.length := by
  cases hc : df.hasCol c
  · rw [setColVals, if_neg (not_hasCol_true df c hc)]
    simp [List.length_zip, h]
  · rw [setColVals, if_pos hc]
    simp [List.length_zip, h]

/-! ### Normalizer lemmas -/

theorem normStep1_of_hasId (df : DF) (h : df.hasCol "id" = true) : normStep1 df = df := by
  rw [normStep1, if_neg]
  rw [h]
  simp

theorem normStep1_of_none (df : DF) (h1 : df.hasCol "id" = false)
    (h2 : df.hasCol "_id" = false) : normStep1 df = df := by
  rw [normStep1, if_neg]
  rw [h1, h2]
  simp

theorem normStep1_fires (df : DF) (h1 : df.hasCol "id" = false)
    (h2 : df.hasCol "_id" = true) :
    normStep1 df = setColF df "id" (fun r => Val.vStr (pyStr (lookupField r "_id"))) := by
  rw [normStep1, if_pos]
  rw [h1, h2]
  rfl

theorem normStep2_of_noId (df : DF) (h : df.hasCol "id" = false) : normStep2 df = df := by
  rw [normStep2, if_neg (not_hasCol_true df "id" h)]

theorem normStep2_fires (df : DF) (h : df.hasCol "id" = true) :
    normStep2 df = setColF df "id" (fun r => Val.vStr (pyStr (lookupField r "id"))) := by
  rw [normStep2, if_pos h]

theorem normStep1_wf (df : DF) (h : df.Wf) : (normStep1 df).Wf := by
  rw [normStep1]
  split
  · exact setColF_wf df "id" _ h
  · exact h

theorem normStep2_wf (df : DF) (h : df.Wf) : (normStep2 df).Wf := by
  rw [normStep2]
  split
  · exact setColF_wf df "id" _ h
  · exact h

theorem normStep1_rows_length (df : DF) : (normStep1 df).rows.length = df.rows.length := by
  rw [normStep1]
  split
  · exact setColF_rows_length df "id" _
  · rfl

theorem normStep2_rows_length (df : DF) : (normStep2 df).rows.length = df.rows.length := by
  rw [normStep2]
  split
  · exact setColF_rows_length df "id" _
  · rfl

theorem mem_normStep1_cols (df : DF) (x : String) (h : x ∈ (normStep1 df).cols) :
    x ∈ df.cols ∨ x = "id" := by
  rw [normStep1] at h
  revert h
  split
  · intro h
    exact (mem_setColF_cols df "id" _ x).1 h
  · intro h
    exact Or.inl h

theorem mem_normStep2_cols (df : DF) (x : String) (h : x ∈ (normStep2 df).cols) :
    x ∈ df.cols ∨ x = "id" := by
  rw [normStep2] at h
  revert h
  split
  · intro h
    exact (mem_setColF_cols df "id" _ x).1 h
  · intro h
    exact Or.inl h

theorem normStep1_cols_mono (df : DF) (x : String) (h : x ∈ df.cols) :
    x ∈ (normStep1 df).cols := by
  rw [normStep1]
  split
  · exact (mem_setColF_cols df "id" _ x).2 (Or.inl h)
  · exact h

theorem normStep2_cols_mono (df : DF) (x : String) (h : x ∈ df.cols) :
    x ∈ (normStep2 df).cols := by
  rw [normStep2]
  split
  · exact (mem_setColF_cols df "id" _ x).2 (Or.inl h)
  · exact h

theorem normalizar_nil : normalizar_df [] = DF.empty := rfl

theorem normalizar_cons (l : List Rec) (h : l ≠ []) :
    normalizar_df l = normStep2 (normStep1 (buildDF l)) := by
  rw [normalizar_df, if_neg]
  simp [h]

theorem normalizar_wf (l : List Rec) : (normalizar_df l).Wf := by
  by_cases h : l = []
  · subst h
    exact ⟨List.nodup_nil, by intro r hr; simp [normalizar_nil, DF.empty] at hr⟩
  · rw [normalizar_cons l h]
    exact normStep2_wf _ (normStep1_wf _ (buildDF_wf l))

theorem normalizar_rows_length (l : List Rec) :
    (normalizar_df l).rows.length = l.length := by
  by_cases h : l = []
  · subst h
    rfl
  · rw [normalizar_cons l h, normStep2_rows_length, normStep1_rows_length,
      buildDF_rows_length]

theorem mem_normalizar_cols (l : List Rec) (x : String)
    (h : x ∈ (normalizar_df l).cols) : x = "id" ∨ ∃ r ∈ l, x ∈ keysOf r := by
  by_cases hl : l = []
  · subst hl
    simp [normalizar_nil, DF.empty] at h
  · rw [normalizar_cons l hl] at h
    rcases mem_normStep2_cols _ x h with h2 | h2
    · rcases mem_normStep1_cols _ x h2 with h3 | h3
      · exact Or.inr ((mem_colsOfRecs l x).1 h3)
      · exact Or.inl h3
    · exact Or.inl h2

theorem normalizar_id_vStr (l : List Rec) :
    ∀ row ∈ (normalizar_df l).rows, (normalizar_df l).hasCol "id" = true →
      ∃ s, lookupField row "id" = Val.vStr s := by
  intro row hrow hcol
  by_cases hl : l = []
  · subst hl
    simp [normalizar_nil, DF.empty] at hrow
  · rw [normalizar_cons l hl] at hrow hcol
    set d1 := normStep1 (buildDF l) with hd1
    cases h1 : d1.hasCol "id"
    · rw [normStep2_of_noId d1 h1] at hcol
      rw [h1] at hcol
      cases hcol
    · rw [normStep2_fires d1 h1] at hrow
      rw [setColF_exist_rows d1 "id" _ h1] at hrow
      simp only [List.mem_map] at hrow
      obtain ⟨r0, hr0, rfl⟩ := hrow
      have hwf : d1.Wf := normStep1_wf _ (buildDF_wf l)
      have hk : "id" ∈ keysOf r0 := by
        rw [hwf.2 r0 hr0]
        exact (hasCol_iff d1 "id").1 h1
      exact ⟨pyStr (lookupField r0 "id"), lookupField_setRowVal_self r0 "id" _ hk⟩

theorem normalizar_underscore_id (l : List Rec)
    (h : (normalizar_df l).hasCol "_id" = true) :
    (normalizar_df l).hasCol "id" = true := by
  by_cases hl : l = []
  · subst hl
    cases h
  · rw [normalizar_cons l hl] at h ⊢
    set d0 := buildDF l with hd0
    have hu0 : d0.hasCol "_id" = true := by
      have hm := (hasCol_iff _ "_id").1 h
      rcases mem_normStep2_cols _ "_id" hm with h2 | h2
      · rcases mem_normStep1_cols _ "_id" h2 with h3 | h3
        · exact (hasCol_iff d0 "_id").2 h3
        · exact absurd h3 (by decide)
      · exact absurd h2 (by decide)
    cases h0 : d0.hasCol "id"
    · rw [normStep1_fires d0 h0 hu0]
      have : "id" ∈ (setColF d0 "id" (fun r => Val.vStr (pyStr (lookupField r "_id")))).cols :=
        (mem_setColF_cols d0 "id" _ "id").2 (Or.inr rfl)
      exact (hasCol_iff _ "id").2 (normStep2_cols_mono _ "id" this)
    · rw [normStep1_of_hasId d0 h0]
      exact (hasCol_iff _ "id").2
        (normStep2_cols_mono _ "id" ((hasCol_iff d0 "id").1 h0))

theorem normalizar_of_normalized (df : DF) (hwf : df.Wf) (hne : df.rows ≠ [])
    (hid : df.hasCol "id" = true → ∀ r ∈ df.rows, ∃ s, lookupField r "id" = Val.vStr s)
    (hund : df.hasCol "_id" = true → df.hasCol "id" = true) :
    normalizar_df df.rows = df := by
  rw [normalizar_cons df.rows hne, buildDF_self df hwf hne]
  cases h : df.hasCol "id"
  · have h2 : df.hasCol "_id" = false := by
      cases h3 : df.hasCol "_id"
      · rfl
      · rw [hund h3] at h
        cases h
    rw [normStep1_of_none df h h2, normStep2_of_noId df h]
  · rw [normStep1_of_hasId df h, normStep2_fires df h]
    refine setColF_self df "id" hwf h _ ?_
    intro r hr
    obtain ⟨s, hs⟩ := hid h r hr
    rw [hs]
    rfl

/-! ### Except and load-pipeline lemmas -/

theorem except_bind_ok {α β : Type} (a : α) (k : α → Except String β) :
    (Except.ok a >>= k) = k a := rfl

theorem except_bind_error {α β : Type} (e : String) (k : α → Except String β) :
    ((Except.error e : Except String α) >>= k) = Except.error e := rfl

theorem except_pure {α : Type} (a : α) : (pure a : Except String α) = Except.ok a := rfl

theorem except_bind_ok_inv {α β : Type} (m : Except String α) (k : α → Except String β)
    (b : β) (h : (m >>= k) = Except.ok b) : ∃ a, m = Except.ok a ∧ k a = Except.ok b := by
  cases m with
  | ok a => exact ⟨a, rfl, h⟩
  | error e =>
    rw [except_bind_error] at h
    cases h

theorem selectColsE_ok_inv (df : DF) (cs : List String) (sel : DF)
    (h : selectColsE df cs = Except.ok sel) :
    sel = ⟨cs, df.rows.map (fun r => canonRow cs r)⟩ := by
  rw [selectColsE] at h
  split at h
  · cases h
    rfl
  · cases h

theorem astypeStrCol_ok_inv (df : DF) (src dst : String) (d : DF)
    (h : astypeStrCol df src dst = Except.ok d) :
    d = setColF df dst (fun r => Val.vStr (pyStr (lookupField r src))) := by
  rw [astypeStrCol] at h
  split at h
  · cases h
    rfl
  · cases h

theorem keysOf_projRec_sub (ks : List String) (r : Rec) (x : String)
    (h : x ∈ keysOf (projRec ks r)) : x ∈ keysOf r := by
  simp only [keysOf, projRec, List.mem_map] at h ⊢
  obtain ⟨p, hp, rfl⟩ := h
  exact ⟨p, (List.mem_filter.1 hp).1, rfl⟩

theorem normalizar_no_id (l : List Rec) (h1 : ∀ r ∈ l, "id" ∉ keysOf r)
    (h2 : ∀ r ∈ l, "_id" ∉ keysOf r) : (normalizar_df l).hasCol "id" = false := by
  by_cases hl : l = []
  · subst hl
    rfl
  · rw [normalizar_cons l hl]
    have h0 : (buildDF l).hasCol "id" = false := by
      rw [hasCol_false_iff]
      intro hm
      obtain ⟨r, hr, hk⟩ := (mem_colsOfRecs l "id").1 hm
      exact h1 r hr hk
    have hu : (buildDF l).hasCol "_id" = false := by
      rw [hasCol_false_iff]
      intro hm
      obtain ⟨r, hr, hk⟩ := (mem_colsOfRecs l "_id").1 hm
      exact h2 r hr hk
    rw [normStep1_of_none _ h0 hu, normStep2_of_noId _ h0]
    exact h0

theorem sortByNome_cols (df : DF) : (sortByNome df).cols = df.cols := rfl

theorem mem_sortByNome (df : DF) (row : Rec) :
    row ∈ (sortByNome df).rows ↔ row ∈ df.rows :=
  (List.perm_insertionSort rowLeNome df.rows).mem_iff

theorem hasCol_of_not_true (df : DF) (c : String) (h : ¬ df.hasCol c = true) :
    df.hasCol c = false := by
  cases hh : df.hasCol c
  · rfl
  · exact absurd hh h

theorem franqFillNome_wf (df : DF) (h : df.Wf) : (franqFillNome df).Wf := by
  rw [franqFillNome]
  split
  · exact h
  · exact setColF_wf df "nome" _ h

theorem franqFillNome_rows_length (df : DF) :
    (franqFillNome df).rows.length = df.rows.length := by
  rw [franqFillNome]
  split
  · rfl
  · exact setColF_rows_length df "nome" _

theorem franqFillNome_hasCol_id (df : DF) :
    (franqFillNome df).hasCol "id" = df.hasCol "id" := by
  rw [franqFillNome]
  split
  · rfl
  · simp only [setColScalar]
    cases h : df.hasCol "id"
    · rw [hasCol_false_iff]
      intro hm
      rcases (mem_setColF_cols _ _ _ "id").1 hm with hm2 | hm2
      · exact (hasCol_false_iff df "id").1 h hm2
      · exact absurd hm2 (by decide)
    · rw [hasCol_iff]
      exact (mem_setColF_cols _ _ _ "id").2 (Or.inl ((hasCol_iff df "id").1 h))

theorem franqFillNome_nome (df : DF) (hwf : df.Wf) (h : df.hasCol "nome" = false) :
    ∀ r ∈ (franqFillNome df).rows, lookupField r "nome" = Val.vStr "Sem Nome" := by
  rw [franqFillNome, if_neg (not_hasCol_true df "nome" h)]
  simp only [setColScalar]
  intro r hr
  rw [setColF_fresh_rows df "nome" _ h] at hr
  simp only [List.mem_map] at hr
  obtain ⟨r0, hr0, rfl⟩ := hr
  refine lookupField_append_self r0 "nome" _ ?_
  rw [hwf.2 r0 hr0]
  exact (hasCol_false_iff df "nome").1 h

theorem franqFillId_fresh (df : DF) (hwf : df.Wf) (h : df.hasCol "id" = false) :
    ∀ r ∈ (franqFillId df).rows,
      ∃ i, i < df.rows.length ∧ lookupField r "id" = Val.vStr (toString i) := by
  rw [franqFillId, if_neg (not_hasCol_true df "id" h)]
  intro r hr
  obtain ⟨r0, hr0, v, hv, rfl⟩ := setColVals_fresh_mem_rows df "id" _ h r hr
  simp only [indexStrs, List.mem_map, List.mem_range] at hv
  obtain ⟨i, hi, rfl⟩ := hv
  refine ⟨i, hi, ?_⟩
  refine lookupField_append_self r0 "id" _ ?_
  rw [hwf.2 r0 hr0]
  exact (hasCol_false_iff df "id").1 h

theorem franqFillId_keep_nome (df : DF)
    (hsem : ∀ r ∈ df.rows, lookupField r "nome" = Val.vStr "Sem Nome") :
    ∀ r ∈ (franqFillId df).rows, lookupField r "nome" = Val.vStr "Sem Nome" := by
  rw [franqFillId]
  split
  · exact hsem
  case isFalse hni =>
    intro r hr
    obtain ⟨r0, hr0, v, hv, rfl⟩ :=
      setColVals_fresh_mem_rows df "id" _ (hasCol_of_not_true df "id" hni) r hr
    rw [lookupField_append_ne r0 "id" v "nome" (by decide)]
    exact hsem r0 hr0

theorem addNome_cols (f2 df d : DF) (h : addNomeFranquia f2 df = Except.ok d) :
    ∀ x ∈ d.cols, x ∈ df.cols ∨ x = "id_franquia_str" ∨ x = "nome_franquia" := by
  intro x hx
  rw [addNomeFranquia] at h
  cases hc : (!df.rows.isEmpty && df.hasCol "id_franquia") with
  | false =>
    rw [hc] at h
    have h2 : Except.ok df = Except.ok d := h
    cases h2
    exact Or.inl hx
  | true =>
    rw [hc] at h
    obtain ⟨sel, hsel, h3⟩ := except_bind_ok_inv _ _ _ h
    obtain ⟨nomes, hn, h4⟩ := except_bind_ok_inv _ _ _ h3
    have h5 : Except.ok (setColVals
        (setColF df "id_franquia_str" (fun r => Val.vStr (pyStr (lookupField r "id_franquia"))))
        "nome_franquia" nomes) = Except.ok d := h4
    cases h5
    rcases (mem_setColVals_cols _ _ _ x).1 hx with hx2 | hx2
    · rcases (mem_setColF_cols _ _ _ x).1 hx2 with hx3 | hx3
      · exact Or.inl hx3
      · exact Or.inr (Or.inl hx3)
    · exact Or.inr (Or.inr hx2)

/-! ### Claim theorems -/

/-- Claim C9: normalization is idempotent — applying `normalizar_df` to
the rows of a table it produced returns that same table (same columns,
same rows, same values). -/
theorem c9_normalizar_idempotent (l : List Rec) :
    normalizar_df ((normalizar_df l).rows) = normalizar_df l := by
  by_cases hl : l = []
  · subst hl
    rfl
  · have hne : (normalizar_df l).rows ≠ [] := by
      intro h
      have hlen := normalizar_rows_length l
      rw [h] at hlen
      exact hl (List.length_eq_zero.1 hlen.symm)
    exact normalizar_of_normalized (normalizar_df l) (normalizar_wf l) hne
      (fun hc r hr => normalizar_id_vStr l r hr hc)
      (normalizar_underscore_id l)

/-- Claim C5: the identity normalizer maps the empty sequence to the
empty table; when no record has an `id` field but some record has an
`_id` field, every output row carries `id` equal to the string form of
its `_id` cell; whenever an `id` column results all its values are
strings; and records lacking both fields pass through unchanged. -/
theorem c5_normalizar_contract :
    (normalizar_df [] = DF.empty) ∧
    (∀ l : List Rec, l ≠ [] →
      (∀ r ∈ l, "id" ∉ keysOf r) → (∃ r ∈ l, "_id" ∈ keysOf r) →
      (normalizar_df l).hasCol "id" = true ∧
      ∀ row ∈ (normalizar_df l).rows,
        lookupField row "id" = Val.vStr (pyStr (lookupField row "_id"))) ∧
    (∀ l : List Rec, ∀ row ∈ (normalizar_df l).rows,
      (normalizar_df l).hasCol "id" = true →
      ∃ s, lookupField row "id" = Val.vStr s) ∧
    (∀ l : List Rec, l ≠ [] →
      (∀ r ∈ l, "id" ∉ keysOf r ∧ "_id" ∉ keysOf r) →
      normalizar_df l = buildDF l) := by
  refine ⟨rfl, ?_, ?_, ?_⟩
  · intro l hne hnoid hund
    have h0 : (buildDF l).hasCol "id" = false := by
      rw [hasCol_false_iff]
      intro hm
      obtain ⟨r, hr, hk⟩ := (mem_colsOfRecs l "id").1 hm
      exact hnoid r hr hk
    have hu : (buildDF l).hasCol "_id" = true := by
      rw [hasCol_iff]
      obtain ⟨r, hr, hk⟩ := hund
      exact (mem_colsOfRecs l "_id").2 ⟨r, hr, hk⟩
    have hwf0 : (buildDF l).Wf := buildDF_wf l
    set f1 : Rec → Val := fun r => Val.vStr (pyStr (lookupField r "_id")) with hf1
    have hd1 : normStep1 (buildDF l) = setColF (buildDF l) "id" f1 :=
      normStep1_fires (buildDF l) h0 hu
    have hd1id : (setColF (buildDF l) "id" f1).hasCol "id" = true :=
      (hasCol_iff _ "id").2 ((mem_setColF_cols _ "id" f1 "id").2 (Or.inr rfl))
    constructor
    · rw [normalizar_cons l hne, hd1]
      exact (hasCol_iff _ "id").2 (normStep2_cols_mono _ "id" ((hasCol_iff _ "id").1 hd1id))
    · intro row hrow
      rw [normalizar_cons l hne, hd1, normStep2_fires _ hd1id,
        setColF_exist_rows _ "id" _ hd1id,
        setColF_fresh_rows (buildDF l) "id" f1 h0] at hrow
      rw [List.map_map] at hrow
      simp only [List.mem_map, Function.comp] at hrow
      obtain ⟨r0, hr0, rfl⟩ := hrow
      have hk0 : "id" ∉ keysOf r0 := by
        rw [hwf0.2 r0 hr0]
        exact (hasCol_false_iff _ "id").1 h0
      have hl1 : lookupField (r0 ++ [("id", f1 r0)]) "id" = f1 r0 :=
        lookupField_append_self r0 "id" (f1 r0) hk0
      have hmem : "id" ∈ keysOf (r0 ++ [("id", f1 r0)]) := by
        rw [keysOf_append_single]
        simp
      have hval : Val.vStr (pyStr (lookupField (r0 ++ [("id", f1 r0)]) "id")) = f1 r0 := by
        rw [hl1]
        rfl
      rw [hval, lookupField_setRowVal_self _ "id" (f1 r0) hmem,
        lookupField_setRowVal_ne _ "id" (f1 r0) "_id" (by decide),
        lookupField_append_ne r0 "id" (f1 r0) "_id" (by decide)]
  · exact normalizar_id_vStr
  · intro l hne h
    have h0 : (buildDF l).hasCol "id" = false := by
      rw [hasCol_false_iff]
      intro hm
      obtain ⟨r, hr, hk⟩ := (mem_colsOfRecs l "id").1 hm
      exact (h r hr).1 hk
    have hu : (buildDF l).hasCol "_id" = false := by
      rw [hasCol_false_iff]
      intro hm
      obtain ⟨r, hr, hk⟩ := (mem_colsOfRecs l "_id").1 hm
      exact (h r hr).2 hk
    rw [normalizar_cons l hne, normStep1_of_none _ h0 hu, normStep2_of_noId _ h0]

/-- Witness for C5: on `[{_id: 5}]` the normalizer produces an `id`
column. -/
theorem c5_witness :
    (normalizar_df [[("_id", Val.vInt 5)]]).hasCol "id" = true :=
  (c5_normalizar_contract.2.1 [[("_id", Val.vInt 5)]] (by decide)
    (by decide) (by decide)).1

/-- Claim C4, counterexample: a record with neither `id` nor `_id`
passes through the normalizer without any canonical identifier field —
the output table has no `id` column at all, and no positional fallback
is applied. -/
theorem c4_counterexample :
    (normalizar_df [[("x", Val.vInt 1)]]).hasCol "id" = false ∧
    (normalizar_df [[("x", Val.vInt 1)]]).rows = [[("x", Val.vInt 1)]] := by decide

/-- Claim C4, amended: every record of a normalized non-empty input in
which some record carries an `id` or `_id` field has a string-valued
`id` field; records lacking both fields yield no identifier (the
row-index fallback lives only in `carregar_franquias`). -/
theorem c4_normalizer_id_amended (l : List Rec) (hne : l ≠ [])
    (h : ∃ r ∈ l, "id" ∈ keysOf r ∨ "_id" ∈ keysOf r) :
    (normalizar_df l).hasCol "id" = true ∧
    ∀ row ∈ (normalizar_df l).rows, ∃ s, lookupField row "id" = Val.vStr s := by
  have hid : (normalizar_df l).hasCol "id" = true := by
    rw [normalizar_cons l hne]
    cases h0 : (buildDF l).hasCol "id"
    · have hu : (buildDF l).hasCol "_id" = true := by
        obtain ⟨r, hr, hk | hk⟩ := h
        · have : (buildDF l).hasCol "id" = true :=
            (hasCol_iff _ "id").2 ((mem_colsOfRecs l "id").2 ⟨r, hr, hk⟩)
          rw [this] at h0
          cases h0
        · exact (hasCol_iff _ "_id").2 ((mem_colsOfRecs l "_id").2 ⟨r, hr, hk⟩)
      rw [normStep1_fires _ h0 hu]
      refine (hasCol_iff _ "id").2 (normStep2_cols_mono _ "id" ?_)
      exact (mem_setColF_cols _ "id" _ "id").2 (Or.inr rfl)
    · rw [normStep1_of_hasId _ h0]
      exact (hasCol_iff _ "id").2 (normStep2_cols_mono _ "id" ((hasCol_iff _ "id").1 h0))
  exact ⟨hid, fun row hrow => normalizar_id_vStr l row hrow hid⟩

/-- Witness for C4 (amended): on `[{_id: 7}]` the normalizer yields an
`id` column. -/
theorem c4_witness :
    (normalizar_df [[("_id", Val.vInt 7)]]).hasCol "id" = true :=
  (c4_normalizer_id_amended [[("_id", Val.vInt 7)]] (by decide) (by decide)).1

/-- Claim C3, counterexample: for the non-numeric filter value `"abc"`
the integer branch is NOT excluded — it degrades to the sentinel `-1`,
so a record whose stored foreign key is the integer `-1` matches the
filter although `-1` equals neither the original value nor its string
form. -/
theorem c3_counterexample :
    matchFilter (filtro (Val.vStr "abc")) [("id_franquia", Val.vInt (-1))] = true ∧
    digitsOnly (pyStr (Val.vStr "abc")) = false ∧
    mongoEq (Val.vInt (-1)) (Val.vStr "abc") = false ∧
    mongoEq (Val.vInt (-1)) (Val.vStr (pyStr (Val.vStr "abc"))) = false := by decide

/-- Claim C3, amended: the flexible filter matches exactly the records
whose stored foreign key equals the original value, its string form, or
its third form — the integer form when the string form is all digits,
else the sentinel integer `-1` (so stored `-1` also matches); a filter
for `7` matches stored `7` and `"7"` but not an unequal non-numeric
string. -/
theorem c3_filter_triform_amended :
    (∀ (fid : Val) (r : Rec),
      matchFilter (filtro fid) r =
        (mongoEq (lookupField r "id_franquia") fid ||
         mongoEq (lookupField r "id_franquia") (Val.vStr (pyStr fid)) ||
         mongoEq (lookupField r "id_franquia") (terceiroVal fid))) ∧
    matchFilter (filtro (Val.vInt 7)) [("id_franquia", Val.vInt 7)] = true ∧
    matchFilter (filtro (Val.vInt 7)) [("id_franquia", Val.vStr "7")] = true ∧
    matchFilter (filtro (Val.vInt 7)) [("id_franquia", Val.vStr "abc")] = false ∧
    matchFilter (filtro (Val.vStr "abc")) [("id_franquia", Val.vInt (-1))] = true := by
  refine ⟨?_, by decide, by decide, by decide, by decide⟩
  intro fid r
  rw [Bool.or_assoc]
  rfl

/-- Claim C8: none of the three public load functions propagates a
failure — each either returns the successful body result or catches the
error and returns its empty fallback; a missing connection yields the
same fallback. -/
theorem c8_errors_caught : ∀ (db : FDB) (fid : Val),
    ((∃ d, carregar_franquias_core db = Except.ok d ∧
        carregar_franquias (some db) = d) ∨
     (∃ e, carregar_franquias_core db = Except.error e ∧
        carregar_franquias (some db) = emptyFranq)) ∧
    ((∃ r, carregar_dados_franquia_core db fid = Except.ok r ∧
        carregar_dados_franquia (some db) fid = r) ∨
     (∃ e, carregar_dados_franquia_core db fid = Except.error e ∧
        carregar_dados_franquia (some db) fid = emptyLoad)) ∧
    ((∃ r, carregar_todos_os_dados_core db = Except.ok r ∧
        carregar_todos_os_dados (some db) = r) ∨
     (∃ e, carregar_todos_os_dados_core db = Except.error e ∧
        carregar_todos_os_dados (some db) = emptyLoad)) ∧
    carregar_franquias none = emptyFranq ∧
    carregar_dados_franquia none fid = emptyLoad ∧
    carregar_todos_os_dados none = emptyLoad := by
  intro db fid
  refine ⟨?_, ?_, ?_, rfl, rfl, rfl⟩
  · cases h : carregar_franquias_core db with
    | ok d => exact Or.inl ⟨d, rfl, by simp [carregar_franquias, h]⟩
    | error e => exact Or.inr ⟨e, rfl, by simp [carregar_franquias, h]⟩
  · cases h : carregar_dados_franquia_core db fid with
    | ok r => exact Or.inl ⟨r, rfl, by simp [carregar_dados_franquia, h]⟩
    | error e => exact Or.inr ⟨e, rfl, by simp [carregar_dados_franquia, h]⟩
  · cases h : carregar_todos_os_dados_core db with
    | ok r => exact Or.inl ⟨r, rfl, by simp [carregar_todos_os_dados, h]⟩
    | error e => exact Or.inr ⟨e, rfl, by simp [carregar_todos_os_dados, h]⟩

/-- Claim C1: on the missing-commander scenario the resolved
commander-name cell is null (`NaN`), not `"Desconhecido"`, because the
last-`nome`-column heuristic copies the suffixed individual-id helper
column; and with an empty commanders table the vehicles table gets no
`comandante_nome` column at all. -/
theorem c1_missing_link_gives_null :
    veisCmdNomeInfo (carregar_dados_franquia_core dbMissingLink (vS "F1"))
      = (true, [Val.vNull]) ∧
    veisCmdNomeInfo (carregar_dados_franquia_core dbEmptyCmd (vS "F1"))
      = (false, [Val.vNull]) := by decide

/-- Claim C2: on the complete chain of the spec scenario the resolved
`comandante_nome` is the individual's id `"I9"` — the value of the
suffixed helper column `id_str_nome_final`, the last column whose name
contains `'nome'` — and not the individual's name `"Ana"`. -/
theorem c2_commander_name_is_id_not_name :
    veisCmdNomeInfo (carregar_dados_franquia_core dbChain (vS "F1"))
      = (true, [Val.vStr "I9"]) := by decide

/-- Claim C6, counterexample: on an all-franchises load whose data has a
complete vehicle→commander→individual chain, the vehicles table still
has a row but no `comandante_nome` column — no commander resolution is
performed in this mode. -/
theorem c6_counterexample :
    veisInfo (carregar_todos_os_dados_core dbAllChain) = (false, 1) := by decide

/-- Claim C7: with a franchise, an organization of that franchise, and
an individual that has both `nome` and `id_franquia`, the all-data load
fails (`temp['nome']` raises because the default merge suffixes renamed
`nome` to `nome_x`/`nome_y`) and the public function returns three empty
tables — no row gains a franchise name. -/
theorem c7_franchise_name_crash :
    carregar_todos_os_dados (some dbFranqName) = emptyLoad ∧
    carregar_todos_os_dados_core dbFranqName = Except.error "KeyError: nome" := by
  constructor
  · decide
  · decide

/-- Claim C10, counterexample: in `carregar_franquias`, a franchise
record lacking a name while another record has one gets a null name,
not `"Sem Nome"` (the fill is column-level, not per-record). -/
theorem c10_counterexample :
    carregar_franquias_core dbTwoFranqs = Except.ok
      ⟨["id", "nome"],
       [[("id", Val.vStr "b"), ("nome", Val.vStr "X")],
        [("id", Val.vStr "a"), ("nome", Val.vNull)]]⟩ := by decide

/-- Claim C6, amended: the all-franchises load performs no commander
resolution at all — whenever the raw vehicle documents have no
`comandante_nome` field, the vehicles table it returns has no
`comandante_nome` column (vehicles receive only the franchise-name
join, like the other tables). -/
theorem c6_no_commander_resolution (db : FDB)
    (h : veisRawLacksCmdNome db = true) : veisResLacksCmdNome db = true := by
  obtain ⟨ef, eo, ei, ev, ec⟩ := db
  rw [veisResLacksCmdNome]
  cases ef with
  | error e => simp [carregar_todos_os_dados_core, except_bind_error]
  | ok franqs =>
  cases eo with
  | error e => simp [carregar_todos_os_dados_core, except_bind_error, except_bind_ok]
  | ok orgs =>
  cases ei with
  | error e => simp [carregar_todos_os_dados_core, except_bind_error, except_bind_ok]
  | ok inds =>
  cases ev with
  | error e => simp [carregar_todos_os_dados_core, except_bind_error, except_bind_ok]
  | ok veics =>
  simp only [veisRawLacksCmdNome, List.all_eq_true] at h
  have hlack : ∀ rrec ∈ veics, "comandante_nome" ∉ keysOf rrec := by
    intro rrec hr hk
    have hb := h rrec hr
    have hcont : (keysOf rrec).contains "comandante_nome" = true := List.elem_iff.2 hk
    rw [hcont] at hb
    cases hb
  have hnorm : (normalizar_df veics).hasCol "comandante_nome" = false := by
    cases hb : (normalizar_df veics).hasCol "comandante_nome"
    · rfl
    · exfalso
      rcases mem_normalizar_cols veics "comandante_nome" ((hasCol_iff _ _).1 hb)
        with h1 | ⟨rrec, hr, hk⟩
      · exact absurd h1 (by decide)
      · exact hlack rrec hr hk
  simp only [carregar_todos_os_dados_core, except_bind_ok]
  cases hemp : (normalizar_df franqs).rows.isEmpty with
  | true =>
    simp only [hemp, if_pos, except_pure]
    simp [hnorm]
  | false =>
    rw [if_neg (by simp)]
    cases ha : astypeStrCol (normalizar_df franqs) "id" "id_str" with
    | error e => simp [ha, except_bind_error]
    | ok f2 =>
    simp only [ha, except_bind_ok]
    cases ho : addNomeFranquia f2 (normalizar_df orgs) with
    | error e => simp [ho, except_bind_error]
    | ok o2 =>
    simp only [ho, except_bind_ok]
    cases hi : addNomeFranquia f2 (normalizar_df inds) with
    | error e => simp [hi, except_bind_error]
    | ok i2 =>
    simp only [hi, except_bind_ok]
    cases hv2 : addNomeFranquia f2 (normalizar_df veics) with
    | error e => simp [hv2, except_bind_error]
    | ok v2 =>
    simp only [hv2, except_bind_ok, except_pure]
    have hv2lack : v2.hasCol "comandante_nome" = false := by
      cases hb : v2.hasCol "comandante_nome"
      · rfl
      · exfalso
        rcases addNome_cols f2 (normalizar_df veics) v2 hv2 "comandante_nome"
          ((hasCol_iff _ _).1 hb) with h1 | h1 | h1
        · rw [(hasCol_iff _ _).2 h1] at hnorm
          cases hnorm
        · exact absurd h1 (by decide)
        · exact absurd h1 (by decide)
    simp [hv2lack]

/-- Witness for C6 (amended): on the concrete all-franchises input with
a complete chain, the resulting vehicles table lacks the commander-name
column. -/
theorem c6_witness : veisResLacksCmdNome dbAllChain = true :=
  c6_no_commander_resolution dbAllChain (by decide)

/-- Claim C10, amended: a successful franchise listing has exactly the
columns `id` and `nome` with rows sorted ascending by `nome`; when NO
franchise record has a name field every row gets the literal
`"Sem Nome"` (a record lacking the field while others have it gets a
null name instead, as the fill is column-level); and when no record has
an `id` or `_id` field the ids are the stringified row indices. -/
theorem c10_franquias_amended (db : FDB) (l : List Rec) (out : DF)
    (hl : db.franquias = Except.ok l)
    (hout : carregar_franquias_core db = Except.ok out) :
    out.cols = ["id", "nome"] ∧
    List.Sorted rowLeNome out.rows ∧
    ((∀ r ∈ l, "nome" ∉ keysOf r) →
      ∀ row ∈ out.rows, lookupField row "nome" = Val.vStr "Sem Nome") ∧
    ((∀ r ∈ l, "id" ∉ keysOf r ∧ "_id" ∉ keysOf r) →
      ∀ row ∈ out.rows, ∃ i, i < l.length ∧
        lookupField row "id" = Val.vStr (toString i)) := by
  simp only [carregar_franquias_core, hl, except_bind_ok] at hout
  set proj : List Rec := l.map (projRec ["nome", "id", "_id"]) with hproj
  set df0 : DF := normalizar_df proj with hdf0
  have hwf0 : df0.Wf := by
    rw [hdf0]
    exact normalizar_wf proj
  cases hemp : df0.rows.isEmpty with
  | true =>
    simp only [hemp] at hout
    have h2 : Except.ok emptyFranq = Except.ok out := hout
    cases h2
    refine ⟨rfl, List.sorted_nil, ?_, ?_⟩
    · intro _ row hrow
      simp [emptyFranq] at hrow
    · intro _ row hrow
      simp [emptyFranq] at hrow
  | false =>
    simp only [hemp] at hout
    obtain ⟨sel, hsel, hout2⟩ := except_bind_ok_inv _ _ _ hout
    have hsel2 := selectColsE_ok_inv _ _ _ hsel
    have hout3 : Except.ok (sortByNome sel) = Except.ok out := hout2
    cases hout3
    subst hsel2
    have hwf1 : (franqFillNome df0).Wf := franqFillNome_wf df0 hwf0
    refine ⟨rfl, List.sorted_insertionSort rowLeNome _, ?_, ?_⟩
    · intro hno row hrow
      rw [mem_sortByNome] at hrow
      have hrow2 : row ∈ (franqFillId (franqFillNome df0)).rows.map
          (fun r => canonRow ["id", "nome"] r) := hrow
      simp only [List.mem_map] at hrow2
      obtain ⟨r2, hr2, rfl⟩ := hrow2
      rw [lookupField_canonRow _ _ _ (by decide)]
      have hnome0 : df0.hasCol "nome" = false := by
        rw [hasCol_false_iff, hdf0]
        intro hm
        rcases mem_normalizar_cols proj "nome" hm with h1 | ⟨r, hr, hk⟩
        · exact absurd h1 (by decide)
        · rw [hproj] at hr
          obtain ⟨r0, hr0, rfl⟩ := List.mem_map.1 hr
          exact hno r0 hr0 (keysOf_projRec_sub _ _ _ hk)
      exact franqFillId_keep_nome (franqFillNome df0)
        (franqFillNome_nome df0 hwf0 hnome0) r2 hr2
    · intro hnone row hrow
      rw [mem_sortByNome] at hrow
      have hrow2 : row ∈ (franqFillId (franqFillNome df0)).rows.map
          (fun r => canonRow ["id", "nome"] r) := hrow
      simp only [List.mem_map] at hrow2
      obtain ⟨r2, hr2, rfl⟩ := hrow2
      rw [lookupField_canonRow _ _ _ (by decide)]
      have hid0 : df0.hasCol "id" = false := by
        rw [hdf0]
        refine normalizar_no_id proj ?_ ?_
        · intro r hr hk
          rw [hproj] at hr
          obtain ⟨r0, hr0, rfl⟩ := List.mem_map.1 hr
          exact (hnone r0 hr0).1 (keysOf_projRec_sub _ _ _ hk)
        · intro r hr hk
          rw [hproj] at hr
          obtain ⟨r0, hr0, rfl⟩ := List.mem_map.1 hr
          exact (hnone r0 hr0).2 (keysOf_projRec_sub _ _ _ hk)
      have hid1 : (franqFillNome df0).hasCol "id" = false := by
        rw [franqFillNome_hasCol_id]
        exact hid0
      obtain ⟨i, hi, hv⟩ := franqFillId_fresh (franqFillNome df0) hwf1 hid1 r2 hr2
      refine ⟨i, ?_, hv⟩
      rw [franqFillNome_rows_length] at hi
      have hlen : df0.rows.length = l.length := by
        rw [hdf0, normalizar_rows_length, hproj, List.length_map]
      rw [hlen] at hi
      exact hi

/-- Witness for C10 (amended): the listing of the two concrete franchise
documents has exactly the columns `id` and `nome`. -/
theorem c10_witness :
    (DF.mk ["id", "nome"]
      [[("id", Val.vStr "b"), ("nome", Val.vStr "X")],
       [("id", Val.vStr "a"), ("nome", Val.vNull)]]).cols = ["id", "nome"] :=
  (c10_franquias_amended dbTwoFranqs
    [[("_id", vS "b"), ("nome", vS "X")], [("_id", vS "a")]]
    ⟨["id", "nome"],
     [[("id", Val.vStr "b"), ("nome", Val.vStr "X")],
      [("id", Val.vStr "a"), ("nome", Val.vNull)]]⟩
    rfl (by decide)).1

end App
